import Mathlib

/-!
Verification development for the AMS-IO-Agent Ring Layout Engine.

The repository's tool wrapper `src/tools/io_ring_generator_tool.py` drives a
layout engine (position resolver, device classifier, auto-filler generator,
layout assembler).  The wrapper itself is embedded directly from the source;
the engine components whose source files are not part of the repository
snapshot are modelled from the specification, as indicated in each doc
comment.

All positions, widths and spacings are integers (the design uses integer
units throughout), so the embedding uses `Int` for perimeter offsets and
`Nat` for cell widths.
-/

namespace RingLayout

/-- The four sides of the rectangular ring. -/
inductive SideName where
  | bottom
  | right
  | top
  | left
deriving DecidableEq, Repr

/-- A declared position of an instance: either an absolute perimeter offset,
or a relative reference to another named instance plus a signed offset
(encoded in the source intent graphs as a delimited string `name_offset`). -/
inductive Position where
  | absolute (off : Int)
  | relative (ref : String) (off : Int)
deriving DecidableEq, Repr

/-- The perimeter offset stored in a position.  For resolved (absolute)
positions this is the instance's placement; the engine only reads it on
absolute positions. -/
def posOffset : Position → Int
  | .absolute o => o
  | .relative _ o => o

/-- Models the Python check `"_" in str(instance["position"])` used by
`visualize_io_ring_from_json` to decide whether relative-position resolution
is needed: relative positions are encoded as `name_offset` strings (which
contain the delimiter), absolute positions are plain integers (which do
not). -/
def posHasUnderscore : Position → Bool
  | .absolute _ => false
  | .relative _ _ => true

/-- One element of the intent graph / layout: a pad, inner pad, corner,
filler or separator instance.  `type` is the instance's explicit kind string
(the JSON `type` field); `device` is the device label used for pattern-based
classification. -/
structure Comp where
  name : String
  type : String
  device : String
  position : Position
  width : Nat
deriving DecidableEq, Repr

/-- Start of an instance's occupied perimeter span. -/
def compStart (c : Comp) : Int := posOffset c.position

/-- End of an instance's occupied perimeter span. -/
def compEnd (c : Comp) : Int := compStart c + (c.width : Int)

/-- Error taxonomy of the layout engine (spec section 7). -/
inductive LayoutError where
  | unresolvedReference (name ref : String)
  | cyclicReference
  | overlapErr (a b : String)
  | layoutOverflow (a b : String)
  | separatorTooSmall (side : SideName) (lo hi : Int)
  | unfillableGap (side : SideName) (lo hi : Int)
  | configurationErr
deriving DecidableEq, Repr

/-- `chainB a b l` holds when the instances of `l`, in order, tile the
perimeter interval from `a` to `b` exactly: each instance starts where the
previous one ended, with no gap and no overlap. -/
def chainB : Int → Int → List Comp → Bool
  | a, b, [] => a == b
  | a, b, c :: cs => (compStart c == a) && chainB (compEnd c) b cs

/-- Sum of the widths of a list of instances, as an integer. -/
def widthSumI (l : List Comp) : Int := (l.map (fun c => (c.width : Int))).sum

/-!
## Exact-fill search (Gap-Fill core, spec section 4.4 step 4)

Modelled from the spec: the source of the auto-filler generator is not part
of the repository snapshot (only its caller `visualize_io_ring_from_json`
is), so the tiling selection is modelled from the specification's words:
greedy placement of the largest catalog width first, with an exact search
fallback; the run fails exactly when no multiset of catalog widths sums to
the gap.  The model is an ordered backtracking search that tries catalog
widths in catalog (descending) order: when plain greedy succeeds it returns
the greedy multiset, and it returns `none` precisely when no combination of
catalog widths reaches the target.
-/

/-- One step of the bounded exact-fill search: `exactFillAux catalog fuel g`
returns a list of catalog widths summing exactly to `g`, trying catalog
entries in order, or `none` when no combination exists.  `fuel ≥ g`
suffices since every chosen width is positive. -/
def exactFillAux (catalog : List Nat) : Nat → Nat → Option (List Nat)
  | _, 0 => some []
  | 0, _ + 1 => none
  | fuel + 1, g + 1 =>
      (catalog.filterMap fun w =>
        if 0 < w ∧ w ≤ g + 1 then
          (exactFillAux catalog fuel (g + 1 - w)).map (fun ws => w :: ws)
        else none).head?

/-- Exact tiling of a gap of length `g` from the filler catalog. -/
def exactFill (catalog : List Nat) (g : Nat) : Option (List Nat) :=
  exactFillAux catalog g g

/-!
## Gap-fill / auto-filler generator (spec section 4.4)

Modelled from the spec: the auto-filler generator's source is not part of
the repository snapshot; the per-gap algorithm below follows spec section
4.4 steps 1-5 (zero gap emits nothing; negative gap is a
`LayoutOverflowError` naming the two adjacent instances; a mandated
separator reserves the catalog's minimum separator width at the boundary;
the remaining length is tiled exactly from the filler catalog or the run
fails with `UnfillableGapError` naming the side and the gap bounds).
-/

/-- Filler-catalog configuration of one layout run: the allowed filler cell
widths (descending), the minimum separator width, and the caller-specified
grouping predicate that mandates a separator between two adjacent
instances. -/
structure FillCfg where
  catalog : List Nat
  minSepWidth : Nat
  sepNeeded : Comp → Comp → Bool

/-- Render a side name for generated instance names. -/
def sideStr : SideName → String
  | .bottom => "bottom"
  | .right => "right"
  | .top => "top"
  | .left => "left"

/-- Deterministic generated name for a synthesized filler/separator cell,
derived from side, gap index and sequence index (spec section 4.4 step 5). -/
def fillerName (side : SideName) (gapIdx seqIdx : Nat) : String :=
  "fill_" ++ sideStr side ++ "_" ++ toString gapIdx ++ "_" ++ toString seqIdx

/-- Lay the chosen catalog widths out consecutively from `pos`, producing
filler instances with deterministic names and abutting positions. -/
def placeFillers (side : SideName) (gapIdx : Nat) : Nat → Int → List Nat → List Comp
  | _, _, [] => []
  | seqIdx, pos, w :: ws =>
      ⟨fillerName side gapIdx seqIdx, "filler", "", .absolute pos, w⟩ ::
        placeFillers side gapIdx (seqIdx + 1) (pos + (w : Int)) ws

/-- The separator instance reserved at a gap boundary. -/
def mkSeparator (side : SideName) (gapIdx : Nat) (pos : Int) (w : Nat) : Comp :=
  ⟨"sep_" ++ sideStr side ++ "_" ++ toString gapIdx, "separator", "", .absolute pos, w⟩

/-- Per-gap filling between two adjacent placed instances `p` and `q`
(spec section 4.4): returns the synthesized filler/separator instances
tiling the gap exactly, or the appropriate layout error. -/
def fillGap (cfg : FillCfg) (side : SideName) (gapIdx : Nat) (p q : Comp) :
    Except LayoutError (List Comp) :=
  let gapStart : Int := compEnd p
  let gap : Int := compStart q - gapStart
  if gap < 0 then .error (.layoutOverflow p.name q.name)
  else if gap = 0 then .ok []
  else
    let g : Nat := gap.toNat
    if cfg.sepNeeded p q then
      if g < cfg.minSepWidth then
        .error (.separatorTooSmall side gapStart (compStart q))
      else
        match exactFill cfg.catalog (g - cfg.minSepWidth) with
        | some ws => .ok (mkSeparator side gapIdx gapStart cfg.minSepWidth ::
            placeFillers side gapIdx 1 (gapStart + (cfg.minSepWidth : Int)) ws)
        | none => .error (.unfillableGap side gapStart (compStart q))
    else
      match exactFill cfg.catalog g with
      | some ws => .ok (placeFillers side gapIdx 0 gapStart ws)
      | none => .error (.unfillableGap side gapStart (compStart q))

/-- End of the last instance of a nonempty instance list `p :: l`. -/
def listEnd : Comp → List Comp → Int
  | p, [] => compEnd p
  | _, q :: rest => listEnd q rest

/-- Walk a side's ordered instance list (pads plus the bounding corners) and
fill every gap between consecutive instances (spec section 4.4).  `sideOf`
maps a perimeter offset to the side name used in error reports and
generated names; `gapIdx` numbers the gaps for deterministic naming. -/
def fillChain (cfg : FillCfg) (sideOf : Int → SideName) :
    Nat → List Comp → Except LayoutError (List Comp)
  | _, [] => .ok []
  | _, [p] => .ok [p]
  | gapIdx, p :: q :: rest => do
      let fs ← fillGap cfg (sideOf (compEnd p)) gapIdx p q
      let out ← fillChain cfg sideOf (gapIdx + 1) (q :: rest)
      .ok (p :: (fs ++ out))

/-!
## Ring geometry and the auto-insert stage
-/

/-- Insert an instance into a start-sorted list, keeping it sorted. -/
def insertByStart (c : Comp) : List Comp → List Comp
  | [] => [c]
  | d :: ds => if compStart c ≤ compStart d then c :: d :: ds
      else d :: insertByStart c ds

/-- Sort perimeter components by resolved start position (the per-side
grouping and ascending sort of spec section 4.3). -/
def sortByStart : List Comp → List Comp
  | [] => []
  | c :: cs => insertByStart c (sortByStart cs)

/-- Ring-level geometry parameters: outer extents and corner size. -/
structure RingGeom where
  width : Nat
  height : Nat
  corner_size : Nat
deriving DecidableEq, Repr

/-- Modelled from the spec: the Ring Geometry Model walks the perimeter
from the bottom-left corner counter-clockwise through bottom, right, top
and left, each corner consuming exactly `corner_size` of perimeter length;
these are the four computed ring-corner positions at the four turns. -/
def cornerPositions (rg : RingGeom) : List Position :=
  [.absolute 0,
   .absolute ((rg.width : Int) - rg.corner_size),
   .absolute ((rg.width : Int) + rg.height - 2 * rg.corner_size),
   .absolute (2 * (rg.width : Int) + rg.height - 3 * rg.corner_size)]

/-- Modelled from the spec: maps a perimeter offset to the side it falls
on, used to name the side in gap-fill error reports and generated filler
names. -/
def posToSide (rg : RingGeom) (pos : Int) : SideName :=
  if pos < (rg.width : Int) - rg.corner_size then .bottom
  else if pos < (rg.width : Int) + rg.height - 2 * rg.corner_size then .right
  else if pos < 2 * (rg.width : Int) + rg.height - 3 * rg.corner_size then .top
  else .left

/-- Modelled from the spec: `auto_insert_fillers_with_inner_pads`, the
auto-filler entry point called by `visualize_io_ring_from_json` (its source
is not part of the repository snapshot).  It sorts the perimeter components
(outer pads and corners) by resolved position and tiles every residual gap
between consecutive components exactly.  Inner pads never participate in
gap computation; they are appended after perimeter tiling by the caller
(`visualize_io_ring_from_json` line 415), so the returned list holds only
perimeter components and synthesized fillers/separators. -/
def auto_insert_fillers_with_inner_pads (cfg : FillCfg) (rg : RingGeom)
    (components : List Comp) (_innerPads : List Comp) :
    Except LayoutError (List Comp) :=
  fillChain cfg (posToSide rg) 0 (sortByStart components)

/-!
## Device classifier (spec section 4.1)

Modelled from the spec: `DeviceClassifier`'s source is not part of the
repository snapshot (only its callers are); the device label is matched
case-insensitively against filler-name patterns (names containing "fill")
and separator-name patterns (names containing "sep" or "break").
-/

/-- Case-folded character list of a device label. -/
def lowerChars (s : String) : List Char := s.data.map Char.toLower

/-- Substring test on character lists. -/
def hasSubstr (pat : List Char) : List Char → Bool
  | [] => pat.isEmpty
  | c :: cs => pat.isPrefixOf (c :: cs) || hasSubstr pat cs

/-- Modelled from the spec: `DeviceClassifier.is_filler_device` — the label
contains "fill", case-insensitively. -/
def is_filler_device (label : String) : Bool :=
  hasSubstr "fill".data (lowerChars label)

/-- Modelled from the spec: `DeviceClassifier.is_separator_device` — the
label contains "sep" or "break", case-insensitively. -/
def is_separator_device (label : String) : Bool :=
  hasSubstr "sep".data (lowerChars label) || hasSubstr "break".data (lowerChars label)

/-- The existing-filler test of `visualize_io_ring_from_json` line 396:
explicit `type == "filler"` or a filler-classified device label. -/
def isFillerLike (c : Comp) : Bool :=
  c.type == "filler" || is_filler_device c.device

/-- The existing-separator test of `visualize_io_ring_from_json` line 397:
explicit `type == "separator"` or a separator-classified device label. -/
def isSepLike (c : Comp) : Bool :=
  c.type == "separator" || is_separator_device c.device

/-!
## Component assembly of `visualize_io_ring_from_json` (source lines 381-415)

Embedded from the source: the tool separates instances into outer pads,
inner pads and corners; if any existing filler or separator instance is
present it keeps them (in input order) and skips automatic filler
generation, otherwise it runs the auto-filler over the outer pads and
corners; finally the inner pads are appended to the component list.
-/

def assemble_visualization_components (cfg : FillCfg) (rg : RingGeom)
    (instances : List Comp) : Except LayoutError (List Comp) :=
  let outer_pads := instances.filter (fun i => i.type == "pad")
  let inner_pads := instances.filter (fun i => i.type == "inner_pad")
  let corners := instances.filter (fun i => i.type == "corner")
  if instances.any isFillerLike || instances.any isSepLike then
    .ok (outer_pads ++ corners ++
      instances.filter (fun c => isFillerLike c || isSepLike c) ++ inner_pads)
  else do
    let filled ← auto_insert_fillers_with_inner_pads cfg rg
      (outer_pads ++ corners) inner_pads
    .ok (filled ++ inner_pads)

/-!
## Position resolver (spec section 4.3)

Modelled from the spec: the source of `convert_relative_to_absolute` is not
part of the repository snapshot (only its caller is).  The model resolves
absolute-position instances immediately, then repeatedly resolves relative
instances whose reference is already resolved (an iterative fixed point);
it fails with `UnresolvedReferenceError` when a relative position names a
non-existent instance and with `CyclicReferenceError` when the remaining
relative references can make no progress (a dependency cycle).
-/

/-- Whether an instance carries a relative position. -/
def isRel (c : Comp) : Bool :=
  match c.position with
  | .relative _ _ => true
  | .absolute _ => false

/-- The reference name of a relative position. -/
def refOf (c : Comp) : Option String :=
  match c.position with
  | .relative r _ => some r
  | .absolute _ => none

/-- Look a name up in the resolved-position table. -/
def lookupRes (res : List (String × Int)) (n : String) : Option Int :=
  (res.find? (fun p => p.1 == n)).map (fun p => p.2)

/-- Try to resolve one instance against the current table: absolute
positions resolve to themselves, relative positions resolve when their
reference is already in the table (adding the declared signed offset). -/
def stepRes (res : List (String × Int)) (c : Comp) : Option Int :=
  match c.position with
  | .absolute o => some o
  | .relative r off => (lookupRes res r).map (fun v => v + off)

/-- The resolved table seeded with all absolute-position instances. -/
def initialRes (insts : List Comp) : List (String × Int) :=
  insts.filterMap fun i =>
    match i.position with
    | .absolute o => some (i.name, o)
    | .relative _ _ => none

/-- Iterative fixed-point resolution of the pending relative instances.
Each pass resolves every pending instance whose reference is already
resolved; a pass that makes no progress (or fuel exhaustion with pending
instances left) means the remaining references form a dependency cycle. -/
def resolveLoop : Nat → List (String × Int) → List Comp →
    Except LayoutError (List (String × Int))
  | _, res, [] => .ok res
  | 0, _, _ :: _ => .error .cyclicReference
  | fuel + 1, res, p :: ps =>
      let pend := p :: ps
      let newly := pend.filterMap fun i =>
        (stepRes res i).map (fun v => (i.name, v))
      let rest := pend.filter (fun i => (stepRes res i).isNone)
      if newly.isEmpty then .error .cyclicReference
      else resolveLoop fuel (res ++ newly) rest

/-- A relative instance whose reference names no instance of the graph, if
any (checked first, yielding `UnresolvedReferenceError`). -/
def missingRef (insts : List Comp) : Option Comp :=
  insts.find? fun i =>
    match i.position with
    | .relative r _ => !(insts.any (fun j => j.name == r))
    | .absolute _ => false

/-- Modelled from the spec: `LayoutGenerator.convert_relative_to_absolute`
— resolves every instance's declared position to an absolute perimeter
offset, failing with `UnresolvedReferenceError` on a dangling reference and
`CyclicReferenceError` on a reference cycle. -/
def convert_relative_to_absolute (insts : List Comp) :
    Except LayoutError (List Comp) :=
  match missingRef insts with
  | some i => .error (.unresolvedReference i.name ((refOf i).getD ""))
  | none =>
    match resolveLoop insts.length (initialRes insts) (insts.filter isRel) with
    | .error e => .error e
    | .ok res => .ok (insts.map fun i =>
        match i.position with
        | .relative _ _ =>
            { i with position := .absolute ((lookupRes res i.name).getD 0) }
        | .absolute _ => i)

/-- The resolution dispatch of `visualize_io_ring_from_json` lines 377-379,
embedded from the source: relative-to-absolute conversion runs only when
some instance's position string contains the `name_offset` delimiter
`"_"`; otherwise the instances are used as provided. -/
def maybeResolve (insts : List Comp) : Except LayoutError (List Comp) :=
  if insts.any (fun i => posHasUnderscore i.position) then
    convert_relative_to_absolute insts
  else .ok insts

/-!
## Configuration defaults (`visualize_io_ring_from_json` lines 353-375)

Embedded from the source: the tool fills `pad_width`, `pad_height`,
`corner_size`, `pad_spacing`, `library_name` and `view_name` from the
layout generator's defaults exactly when the caller's `ring_config` left
them unset, and touches no other field.  The concrete default values live
in the layout generator, whose source is not part of the repository
snapshot, so they are a parameter here.
-/

/-- A caller-supplied `ring_config` mapping: optional fields are absent
when the caller did not set them. -/
structure RingConfigIn where
  width : Nat
  height : Nat
  pad_width : Option Nat
  pad_height : Option Nat
  corner_size : Option Nat
  pad_spacing : Option Nat
  library_name : Option String
  cell_name : Option String
  view_name : Option String
deriving DecidableEq, Repr

/-- Modelled from the spec: the layout generator's built-in configuration
defaults (`generator.config`), whose concrete values are in the missing
`LayoutGenerator` source. -/
structure GeneratorDefaults where
  pad_width : Nat
  pad_height : Nat
  corner_size : Nat
  pad_spacing : Nat
  library_name : String
  view_name : String
deriving DecidableEq, Repr

/-- The defaulting block of `visualize_io_ring_from_json` lines 364-375:
each of the six fields is filled from the generator defaults exactly when
it is not already present in `ring_config`. -/
def applyConfigDefaults (d : GeneratorDefaults) (rc : RingConfigIn) :
    RingConfigIn :=
  { rc with
    pad_width := some (rc.pad_width.getD d.pad_width)
    pad_height := some (rc.pad_height.getD d.pad_height)
    corner_size := some (rc.corner_size.getD d.corner_size)
    pad_spacing := some (rc.pad_spacing.getD d.pad_spacing)
    library_name := some (rc.library_name.getD d.library_name)
    view_name := some (rc.view_name.getD d.view_name) }

/-!
## Concrete fixtures used by the witness theorems
-/

/-- A catalog-only configuration with no separator requirement. -/
def noSepCfg (cat : List Nat) : FillCfg := ⟨cat, 8, fun _ _ => false⟩

/-- Left end pad of the 100-unit example side (spec section 8). -/
def padLeft30 : Comp := ⟨"pad_left", "pad", "", .absolute 0, 30⟩

/-- Right end pad of the 100-unit example side (spec section 8). -/
def padRight30 : Comp := ⟨"pad_right", "pad", "", .absolute 70, 30⟩

/-- First synthesized 20-unit filler of the example side. -/
def fillBottom0 : Comp := ⟨"fill_bottom_0_0", "filler", "", .absolute 30, 20⟩

/-- Second synthesized 20-unit filler of the example side. -/
def fillBottom1 : Comp := ⟨"fill_bottom_0_1", "filler", "", .absolute 50, 20⟩

/-- A 10-unit pad starting a 15-unit gap example. -/
def padA10 : Comp := ⟨"a", "pad", "", .absolute 0, 10⟩

/-- A 5-unit pad ending a 15-unit gap example. -/
def padB5 : Comp := ⟨"b", "pad", "", .absolute 25, 5⟩

/-- Example ring geometry: 100 by 80 with 10-unit corners. -/
def rgW : RingGeom := ⟨100, 80, 10⟩

/-- The bottom-left corner instance of the example ring. -/
def cornerBL : Comp := ⟨"corner_bl", "corner", "", .absolute 0, 10⟩

/-- The bottom-right corner instance of the example ring. -/
def cornerBR : Comp := ⟨"corner_br", "corner", "", .absolute 90, 10⟩

/-- A 20-unit pad on the bottom side of the example ring. -/
def padMid : Comp := ⟨"pad_m", "pad", "", .absolute 10, 20⟩

/-- Instance `A`, placed relative to `B` (cycle example). -/
def instRelA : Comp := ⟨"A", "pad", "", .relative "B" 10, 5⟩

/-- Instance `B`, placed relative to `A` (cycle example). -/
def instRelB : Comp := ⟨"B", "pad", "", .relative "A" 10, 5⟩

/-- Instance `C`, placed relative to the non-existent `Z`. -/
def instRelC : Comp := ⟨"C", "pad", "", .relative "Z" 1, 5⟩

/-- An inner pad instance used by the assembly examples. -/
def instInner : Comp := ⟨"i1", "inner_pad", "", .absolute 5, 7⟩

/-- An outer pad instance used by the assembly examples. -/
def instPad : Comp := ⟨"p1", "pad", "", .absolute 10, 20⟩

/-- A corner instance used by the assembly examples. -/
def instCorner : Comp := ⟨"c1", "corner", "", .absolute 0, 10⟩

/-- An explicit filler instance used by the assembly examples. -/
def instFiller : Comp := ⟨"f1", "filler", "", .absolute 40, 10⟩

end RingLayout

namespace RingLayout

/-!
## Supporting lemmas
-/

theorem chainB_sum : ∀ (l : List Comp) (a b : Int), chainB a b l = true →
    a + widthSumI l = b := by
  intro l
  induction l with
  | nil =>
    intro a b h
    simp only [chainB, beq_iff_eq] at h
    simp [widthSumI, h]
  | cons c cs ih =>
    intro a b h
    simp only [chainB, Bool.and_eq_true, beq_iff_eq] at h
    have h2 := ih (compEnd c) b h.2
    simp only [widthSumI, List.map_cons, List.sum_cons]
    have hs : compEnd c = a + (c.width : Int) := by
      rw [compEnd, h.1]
    rw [hs] at h2
    rw [← h2, widthSumI]
    ring

theorem chainB_append {a m b : Int} {l₁ l₂ : List Comp}
    (h₁ : chainB a m l₁ = true) (h₂ : chainB m b l₂ = true) :
    chainB a b (l₁ ++ l₂) = true := by
  induction l₁ generalizing a with
  | nil =>
    simp only [chainB, beq_iff_eq] at h₁
    subst h₁
    simpa using h₂
  | cons c cs ih =>
    simp only [chainB, Bool.and_eq_true, beq_iff_eq] at h₁ ⊢
    exact ⟨h₁.1, ih h₁.2⟩

theorem exactFillAux_sound (catalog : List Nat) :
    ∀ (fuel g : Nat) (ws : List Nat), exactFillAux catalog fuel g = some ws →
      ws.sum = g ∧ ∀ w ∈ ws, w ∈ catalog := by
  intro fuel
  induction fuel with
  | zero =>
    intro g ws h
    cases g with
    | zero =>
      simp only [exactFillAux, Option.some.injEq] at h
      subst h
      simp
    | succ n => simp [exactFillAux] at h
  | succ fuel ih =>
    intro g ws h
    cases g with
    | zero =>
      simp only [exactFillAux, Option.some.injEq] at h
      subst h
      simp
    | succ n =>
      simp only [exactFillAux] at h
      have hmem : ws ∈ catalog.filterMap fun w =>
          if 0 < w ∧ w ≤ n + 1 then
            (exactFillAux catalog fuel (n + 1 - w)).map (fun l => w :: l)
          else none := by
        cases hl : catalog.filterMap fun w =>
            if 0 < w ∧ w ≤ n + 1 then
              (exactFillAux catalog fuel (n + 1 - w)).map (fun l => w :: l)
            else none with
        | nil => rw [hl] at h; simp at h
        | cons x xs =>
          rw [hl] at h
          simp only [List.head?] at h
          cases h
          exact List.mem_cons_self ws xs
      rcases List.mem_filterMap.mp hmem with ⟨w, hw, hsome⟩
      by_cases hcond : 0 < w ∧ w ≤ n + 1
      · rw [if_pos hcond] at hsome
        rcases Option.map_eq_some'.mp hsome with ⟨ws', hrec, hcons⟩
        have hws' := ih (n + 1 - w) ws' hrec
        subst hcons
        constructor
        · simp only [List.sum_cons, hws'.1]
          omega
        · intro x hx
          rcases List.mem_cons.mp hx with h1 | h2
          · subst h1; exact hw
          · exact hws'.2 x h2
      · rw [if_neg hcond] at hsome
        exact absurd hsome (by simp)

theorem exactFillAux_complete (catalog : List Nat) :
    ∀ (fuel g : Nat), g ≤ fuel →
      ∀ ws : List Nat, (∀ w ∈ ws, w ∈ catalog) → ws.sum = g →
      (exactFillAux catalog fuel g).isSome := by
  intro fuel
  induction fuel with
  | zero =>
    intro g hg ws _ hsum
    interval_cases g
    simp [exactFillAux]
  | succ fuel ih =>
    intro g hg ws hmem hsum
    cases g with
    | zero => simp [exactFillAux]
    | succ n =>
      have hex : ∃ w ∈ ws, 0 < w := by
        by_contra hall
        push_neg at hall
        have : ws.sum = 0 := by
          apply List.sum_eq_zero
          intro x hx
          exact Nat.le_zero.mp (hall x hx)
        omega
      rcases hex with ⟨w, hwmem, hwpos⟩
      have hwle : w ≤ n + 1 := by
        have := List.single_le_sum (fun x _ => Nat.zero_le x) w hwmem
        omega
      have hperm : ws.Perm (w :: ws.erase w) := List.perm_cons_erase hwmem
      have hsum' : (ws.erase w).sum = n + 1 - w := by
        have := hperm.sum_eq
        simp only [List.sum_cons] at this
        omega
      have hmem' : ∀ x ∈ ws.erase w, x ∈ catalog := fun x hx =>
        hmem x (List.mem_of_mem_erase hx)
      have hrec : (exactFillAux catalog fuel (n + 1 - w)).isSome := by
        apply ih (n + 1 - w) (by omega) (ws.erase w) hmem' hsum'
      rcases Option.isSome_iff_exists.mp hrec with ⟨ws', hws'⟩
      simp only [exactFillAux]
      have hin : (w :: ws') ∈ catalog.filterMap fun v =>
          if 0 < v ∧ v ≤ n + 1 then
            (exactFillAux catalog fuel (n + 1 - v)).map (fun l => v :: l)
          else none := by
        apply List.mem_filterMap.mpr
        refine ⟨w, hmem w hwmem, ?_⟩
        rw [if_pos ⟨hwpos, hwle⟩, hws']
        rfl
      cases hl : catalog.filterMap fun v =>
          if 0 < v ∧ v ≤ n + 1 then
            (exactFillAux catalog fuel (n + 1 - v)).map (fun l => v :: l)
          else none with
      | nil => rw [hl] at hin; exact absurd hin (List.not_mem_nil _)
      | cons x xs => simp

/-- Soundness of `exactFill`: a returned tiling consists of catalog widths
and sums exactly to the gap. -/
theorem exactFill_sound (catalog : List Nat) (g : Nat) (ws : List Nat)
    (h : exactFill catalog g = some ws) :
    ws.sum = g ∧ ∀ w ∈ ws, w ∈ catalog :=
  exactFillAux_sound catalog g g ws h

/-- Completeness of `exactFill`: whenever some multiset of catalog widths
sums to the gap, the search succeeds. -/
theorem exactFill_complete (catalog : List Nat) (g : Nat) (ws : List Nat)
    (hmem : ∀ w ∈ ws, w ∈ catalog) (hsum : ws.sum = g) :
    (exactFill catalog g).isSome :=
  exactFillAux_complete catalog g g (Nat.le_refl g) ws hmem hsum

theorem placeFillers_chain (side : SideName) (gapIdx : Nat) :
    ∀ (ws : List Nat) (seqIdx : Nat) (pos : Int),
      chainB pos (pos + (ws.sum : Int)) (placeFillers side gapIdx seqIdx pos ws) = true := by
  intro ws
  induction ws with
  | nil =>
    intro seqIdx pos
    simp [placeFillers, chainB]
  | cons w ws ih =>
    intro seqIdx pos
    simp only [placeFillers, chainB, Bool.and_eq_true, beq_iff_eq]
    constructor
    · rfl
    · have := ih (seqIdx + 1) (pos + (w : Int))
      have harith : pos + (w : Int) + (ws.sum : Int) = pos + ((w + ws.sum : Nat) : Int) := by
        push_cast
        ring
      rw [harith] at this
      convert this using 2

theorem placeFillers_types (side : SideName) (gapIdx : Nat) :
    ∀ (ws : List Nat) (seqIdx : Nat) (pos : Int),
      ∀ x ∈ placeFillers side gapIdx seqIdx pos ws, x.type = "filler" := by
  intro ws
  induction ws with
  | nil => intro seqIdx pos x hx; simp [placeFillers] at hx
  | cons w ws ih =>
    intro seqIdx pos x hx
    simp only [placeFillers, List.mem_cons] at hx
    rcases hx with h1 | h2
    · subst h1; rfl
    · exact ih (seqIdx + 1) (pos + (w : Int)) x h2

/-- A successful per-gap fill tiles the interval between the end of `p` and
the start of `q` exactly. -/
theorem fillGap_ok_chain {cfg : FillCfg} {side : SideName} {gapIdx : Nat}
    {p q : Comp} {fs : List Comp} (h : fillGap cfg side gapIdx p q = .ok fs) :
    chainB (compEnd p) (compStart q) fs = true := by
  unfold fillGap at h
  by_cases hneg : compStart q - compEnd p < 0
  · rw [if_pos hneg] at h; exact absurd h (by simp)
  · rw [if_neg hneg] at h
    by_cases hz : compStart q - compEnd p = 0
    · rw [if_pos hz] at h
      cases h
      simp only [chainB, beq_iff_eq]
      omega
    · rw [if_neg hz] at h
      have hqp : compEnd p + ((compStart q - compEnd p).toNat : Int) = compStart q := by
        omega
      by_cases hsep : cfg.sepNeeded p q
      · rw [if_pos hsep] at h
        by_cases hsmall : (compStart q - compEnd p).toNat < cfg.minSepWidth
        · rw [if_pos hsmall] at h; exact absurd h (by simp)
        · rw [if_neg hsmall] at h
          cases hfill : exactFill cfg.catalog ((compStart q - compEnd p).toNat - cfg.minSepWidth) with
          | none => rw [hfill] at h; exact absurd h (by simp)
          | some ws =>
            rw [hfill] at h
            cases h
            have hsum := (exactFill_sound _ _ _ hfill).1
            have hchain := placeFillers_chain side gapIdx ws 1
              (compEnd p + (cfg.minSepWidth : Int))
            rw [hsum] at hchain
            have hsepchain : chainB (compEnd p) (compEnd p + (cfg.minSepWidth : Int))
                [mkSeparator side gapIdx (compEnd p) cfg.minSepWidth] = true := by
              simp [chainB, mkSeparator, compStart, compEnd, posOffset]
            have := chainB_append hsepchain hchain
            simp only [List.singleton_append] at this
            have harith : compEnd p + (cfg.minSepWidth : Int) +
                ((((compStart q - compEnd p).toNat - cfg.minSepWidth : Nat)) : Int) =
                compStart q := by
              omega
            rw [harith] at this
            exact this
      · rw [if_neg hsep] at h
        cases hfill : exactFill cfg.catalog (compStart q - compEnd p).toNat with
        | none => rw [hfill] at h; exact absurd h (by simp)
        | some ws =>
          rw [hfill] at h
          cases h
          have hsum := (exactFill_sound _ _ _ hfill).1
          have hchain := placeFillers_chain side gapIdx ws 0 (compEnd p)
          rw [hsum, hqp] at hchain
          exact hchain

/-- A successful per-gap fill emits only filler and separator instances. -/
theorem fillGap_ok_types {cfg : FillCfg} {side : SideName} {gapIdx : Nat}
    {p q : Comp} {fs : List Comp} (h : fillGap cfg side gapIdx p q = .ok fs) :
    ∀ x ∈ fs, x.type = "filler" ∨ x.type = "separator" := by
  unfold fillGap at h
  by_cases hneg : compStart q - compEnd p < 0
  · rw [if_pos hneg] at h; exact absurd h (by simp)
  · rw [if_neg hneg] at h
    by_cases hz : compStart q - compEnd p = 0
    · rw [if_pos hz] at h
      cases h
      intro x hx
      simp at hx
    · rw [if_neg hz] at h
      by_cases hsep : cfg.sepNeeded p q
      · rw [if_pos hsep] at h
        by_cases hsmall : (compStart q - compEnd p).toNat < cfg.minSepWidth
        · rw [if_pos hsmall] at h; exact absurd h (by simp)
        · rw [if_neg hsmall] at h
          cases hfill : exactFill cfg.catalog ((compStart q - compEnd p).toNat - cfg.minSepWidth) with
          | none => rw [hfill] at h; exact absurd h (by simp)
          | some ws =>
            rw [hfill] at h
            cases h
            intro x hx
            rcases List.mem_cons.mp hx with h1 | h2
            · subst h1; right; rfl
            · left; exact placeFillers_types side gapIdx ws 1 _ x h2
      · rw [if_neg hsep] at h
        cases hfill : exactFill cfg.catalog (compStart q - compEnd p).toNat with
        | none => rw [hfill] at h; exact absurd h (by simp)
        | some ws =>
          rw [hfill] at h
          cases h
          intro x hx
          left
          exact placeFillers_types side gapIdx ws 0 _ x hx

theorem fillChain_ok_chain (cfg : FillCfg) (sideOf : Int → SideName) :
    ∀ (l : List Comp) (p : Comp) (gapIdx : Nat) (out : List Comp),
      fillChain cfg sideOf gapIdx (p :: l) = .ok out →
      chainB (compStart p) (listEnd p l) out = true := by
  intro l
  induction l with
  | nil =>
    intro p gapIdx out h
    simp only [fillChain, Except.ok.injEq] at h
    subst h
    simp [chainB, listEnd, compEnd]
  | cons q rest ih =>
    intro p gapIdx out h
    simp only [fillChain, bind, Except.bind] at h
    cases hgap : fillGap cfg (sideOf (compEnd p)) gapIdx p q with
    | error e => rw [hgap] at h; exact absurd h (by simp)
    | ok fs =>
      rw [hgap] at h
      cases hrec : fillChain cfg sideOf (gapIdx + 1) (q :: rest) with
      | error e => rw [hrec] at h; exact absurd h (by simp)
      | ok out' =>
        rw [hrec] at h
        simp only [Except.ok.injEq] at h
        subst h
        have hfs := fillGap_ok_chain hgap
        have hout' := ih q (gapIdx + 1) out' hrec
        have htail : chainB (compEnd p) (listEnd q rest) (fs ++ out') = true :=
          chainB_append hfs hout'
        simp only [chainB, Bool.and_eq_true, beq_iff_eq, listEnd]
        exact ⟨trivial, htail⟩

theorem fillChain_preserves (cfg : FillCfg) (sideOf : Int → SideName) :
    ∀ (l : List Comp) (gapIdx : Nat) (out : List Comp),
      fillChain cfg sideOf gapIdx l = .ok out →
      (∀ x ∈ l, x ∈ out) ∧
      (∀ x ∈ out, x ∈ l ∨ x.type = "filler" ∨ x.type = "separator") := by
  intro l
  induction l with
  | nil =>
    intro gapIdx out h
    simp only [fillChain, Except.ok.injEq] at h
    subst h
    exact ⟨by simp, by simp⟩
  | cons p l ih =>
    intro gapIdx out h
    cases l with
    | nil =>
      simp only [fillChain, Except.ok.injEq] at h
      subst h
      exact ⟨by simp, fun x hx => Or.inl hx⟩
    | cons q rest =>
      simp only [fillChain, bind, Except.bind] at h
      cases hgap : fillGap cfg (sideOf (compEnd p)) gapIdx p q with
      | error e => rw [hgap] at h; exact absurd h (by simp)
      | ok fs =>
        rw [hgap] at h
        cases hrec : fillChain cfg sideOf (gapIdx + 1) (q :: rest) with
        | error e => rw [hrec] at h; exact absurd h (by simp)
        | ok out' =>
          rw [hrec] at h
          simp only [Except.ok.injEq] at h
          subst h
          have hrecpres := ih (gapIdx + 1) out' hrec
          have hgaptypes := fillGap_ok_types hgap
          constructor
          · intro x hx
            rcases List.mem_cons.mp hx with h1 | h2
            · subst h1; exact List.mem_cons_self _ _
            · have := hrecpres.1 x h2
              apply List.mem_cons_of_mem
              exact List.mem_append_right fs this
          · intro x hx
            rcases List.mem_cons.mp hx with h1 | h2
            · subst h1; exact Or.inl (List.mem_cons_self _ _)
            · rcases List.mem_append.mp h2 with hfs | hout'
              · exact Or.inr (hgaptypes x hfs)
              · rcases hrecpres.2 x hout' with hmem | hty
                · exact Or.inl (List.mem_cons_of_mem _ hmem)
                · exact Or.inr hty

theorem mem_insertByStart (c x : Comp) :
    ∀ l : List Comp, (x ∈ insertByStart c l ↔ x = c ∨ x ∈ l) := by
  intro l
  induction l with
  | nil => simp [insertByStart]
  | cons d ds ih =>
    simp only [insertByStart]
    by_cases hle : compStart c ≤ compStart d
    · rw [if_pos hle]
      simp [List.mem_cons]
    · rw [if_neg hle]
      simp only [List.mem_cons, ih]
      tauto

theorem mem_sortByStart (x : Comp) :
    ∀ l : List Comp, (x ∈ sortByStart l ↔ x ∈ l) := by
  intro l
  induction l with
  | nil => simp [sortByStart]
  | cons c cs ih =>
    simp only [sortByStart, mem_insertByStart, List.mem_cons, ih]

theorem lookupRes_eq_none {res : List (String × Int)} {n : String} :
    lookupRes res n = none ↔ ∀ p ∈ res, p.1 ≠ n := by
  simp only [lookupRes, Option.map_eq_none', List.find?_eq_none]
  constructor
  · intro h p hp
    have := h p hp
    simpa using this
  · intro h p hp
    simpa using h p hp

theorem lookupRes_append_none {a b : List (String × Int)} {n : String}
    (ha : lookupRes a n = none) (hb : lookupRes b n = none) :
    lookupRes (a ++ b) n = none := by
  rw [lookupRes_eq_none] at ha hb ⊢
  intro p hp
  rcases List.mem_append.mp hp with h | h
  · exact ha p h
  · exact hb p h

theorem name_inj {insts : List Comp}
    (hnodup : (insts.map (fun i => i.name)).Nodup)
    {a b : Comp} (ha : a ∈ insts) (hb : b ∈ insts) (hn : a.name = b.name) :
    a = b :=
  List.inj_on_of_nodup_map hnodup ha hb hn

/-- If a nonempty set `S` of relative instances references only names of
instances inside `S`, none of its members can ever be resolved, so the
fixed-point loop reports a reference cycle. -/
theorem resolveLoop_stuck (insts S : List Comp)
    (hnodup : (insts.map (fun i => i.name)).Nodup)
    (hSne : S ≠ [])
    (hSrel : ∀ i ∈ S, ∃ r off, i.position = Position.relative r off ∧
      ∃ j ∈ S, j.name = r)
    (hSin : ∀ i ∈ S, i ∈ insts) :
    ∀ (fuel : Nat) (res : List (String × Int)) (pending : List Comp),
      (∀ i ∈ S, i ∈ pending) →
      (∀ i ∈ pending, i ∈ insts) →
      (∀ i ∈ S, lookupRes res i.name = none) →
      resolveLoop fuel res pending = .error .cyclicReference := by
  intro fuel
  induction fuel with
  | zero =>
    intro res pending hSp hpin hlook
    obtain ⟨i, hi⟩ := List.exists_mem_of_ne_nil S hSne
    cases pending with
    | nil => exact absurd (hSp i hi) (List.not_mem_nil i)
    | cons p ps => rfl
  | succ fuel ih =>
    intro res pending hSp hpin hlook
    obtain ⟨i₀, hi₀⟩ := List.exists_mem_of_ne_nil S hSne
    have hstep : ∀ i ∈ S, stepRes res i = none := by
      intro i hi
      obtain ⟨r, off, hpos, j, hj, hjname⟩ := hSrel i hi
      have hlr : lookupRes res r = none := by
        rw [← hjname]
        exact hlook j hj
      simp only [stepRes, hpos, hlr, Option.map_none']
    cases pending with
    | nil => exact absurd (hSp i₀ hi₀) (List.not_mem_nil i₀)
    | cons p ps =>
      simp only [resolveLoop]
      by_cases hempty : ((p :: ps).filterMap fun i =>
          (stepRes res i).map (fun v => (i.name, v))).isEmpty
      · rw [if_pos hempty]
      · rw [if_neg hempty]
        apply ih
        · intro i hi
          apply List.mem_filter.mpr
          refine ⟨hSp i hi, ?_⟩
          simp [hstep i hi]
        · intro i hi
          exact hpin i (List.mem_of_mem_filter hi)
        · intro i hi
          apply lookupRes_append_none (hlook i hi)
          rw [lookupRes_eq_none]
          intro q hq
          rcases List.mem_filterMap.mp hq with ⟨d, hd, hdq⟩
          rcases Option.map_eq_some'.mp hdq with ⟨v, hv, hqeq⟩
          subst hqeq
          intro hname
          have hdins : d ∈ insts := hpin d hd
          have : d = i := name_inj hnodup hdins (hSin i hi) hname
          subst this
          rw [hstep d hi] at hv
          exact Option.noConfusion hv

/-- The cyclic-reference failure of the resolver: under unique names,
existing references, and a nonempty self-referential set of relative
instances, resolution fails with `CyclicReferenceError`. -/
theorem convert_relative_cyclic {insts : List Comp}
    (hnodup : (insts.map (fun i => i.name)).Nodup)
    (hrefs : ∀ i ∈ insts, ∀ r off, i.position = Position.relative r off →
      ∃ j ∈ insts, j.name = r)
    (S : List Comp) (hSne : S ≠ []) (hSin : ∀ i ∈ S, i ∈ insts)
    (hSrel : ∀ i ∈ S, ∃ r off, i.position = Position.relative r off ∧
      ∃ j ∈ S, j.name = r) :
    convert_relative_to_absolute insts = .error .cyclicReference := by
  have hmiss : missingRef insts = none := by
    rw [missingRef, List.find?_eq_none]
    intro i hi
    cases hpos : i.position with
    | absolute o => simp [hpos]
    | relative r off =>
      simp only [hpos]
      obtain ⟨j, hj, hjname⟩ := hrefs i hi r off hpos
      have : insts.any (fun j => j.name == r) = true := by
        rw [List.any_eq_true]
        exact ⟨j, hj, by simp [hjname]⟩
      simp [this]
  have hloop : resolveLoop insts.length (initialRes insts) (insts.filter isRel) =
      .error .cyclicReference := by
    apply resolveLoop_stuck insts S hnodup hSne hSrel hSin
    · intro i hi
      apply List.mem_filter.mpr
      refine ⟨hSin i hi, ?_⟩
      obtain ⟨r, off, hpos, _⟩ := hSrel i hi
      simp [isRel, hpos]
    · intro i hi
      exact List.mem_of_mem_filter hi
    · intro i hi
      rw [lookupRes_eq_none]
      intro q hq
      rcases List.mem_filterMap.mp hq with ⟨d, hd, hdq⟩
      cases hdpos : d.position with
      | relative r off => rw [hdpos] at hdq; exact Option.noConfusion hdq
      | absolute o =>
        rw [hdpos] at hdq
        simp only [Option.some.injEq] at hdq
        subst hdq
        intro hname
        have : d = i := name_inj hnodup hd (hSin i hi) hname
        subst this
        obtain ⟨r, off, hpos, _⟩ := hSrel d hi
        rw [hpos] at hdpos
        exact Position.noConfusion hdpos
  rw [convert_relative_to_absolute, hmiss, hloop]

/-- The dangling-reference failure of the resolver: a relative position
naming a non-existent instance yields `UnresolvedReferenceError`. -/
theorem convert_relative_missing {insts : List Comp}
    (h : ∃ i ∈ insts, ∃ r off, i.position = Position.relative r off ∧
      ∀ j ∈ insts, j.name ≠ r) :
    ∃ n m, convert_relative_to_absolute insts =
      .error (.unresolvedReference n m) := by
  obtain ⟨i, hi, r, off, hpos, hnone⟩ := h
  have hsome : (missingRef insts).isSome := by
    rw [missingRef, List.find?_isSome]
    refine ⟨i, hi, ?_⟩
    simp only [hpos]
    have : insts.any (fun j => j.name == r) = false := by
      rw [List.any_eq_false]
      intro j hj
      simpa using hnone j hj
    simp [this]
  obtain ⟨c, hc⟩ := Option.isSome_iff_exists.mp hsome
  refine ⟨c.name, (refOf c).getD "", ?_⟩
  rw [convert_relative_to_absolute, hc]

/-!
## Claim theorems
-/

/-- Claim C1: when the gap-fill stage succeeds on a side's ordered instance
list (pads plus the bounding corners), the resulting instance sequence
tiles the side exactly — every instance starts where the previous one
ended (no gap, no overlap), and the widths of all instances on the side
(pads, corners, fillers and separators; the exact tiling leaves zero
inter-instance spacing) sum exactly to the side's usable length, the span
from the first instance's start to the last instance's end. -/
theorem fillChain_exact_tiling (cfg : FillCfg) (sideOf : Int → SideName)
    (p : Comp) (l : List Comp) (gapIdx : Nat) (out : List Comp)
    (h : fillChain cfg sideOf gapIdx (p :: l) = .ok out) :
    chainB (compStart p) (listEnd p l) out = true ∧
    compStart p + widthSumI out = listEnd p l := by
  have hc := fillChain_ok_chain cfg sideOf l p gapIdx out h
  exact ⟨hc, chainB_sum out _ _ hc⟩

/-- Witness for C1: a side bounded by a 10-unit pad at 0 and a 5-unit pad
at 25, filled from catalog `[10, 5]`, tiles the interval 0..30 exactly and
its widths sum to 30. -/
theorem fillChain_exact_tiling_witness :
    chainB 0 30 [padA10,
      ⟨"fill_top_0_0", "filler", "", .absolute 10, 10⟩,
      ⟨"fill_top_0_1", "filler", "", .absolute 20, 5⟩, padB5] = true ∧
    (0 : Int) + widthSumI [padA10,
      ⟨"fill_top_0_0", "filler", "", .absolute 10, 10⟩,
      ⟨"fill_top_0_1", "filler", "", .absolute 20, 5⟩, padB5] = 30 :=
  fillChain_exact_tiling (noSepCfg [10, 5]) (fun _ => SideName.top) padA10
    [padB5] 0
    [padA10, ⟨"fill_top_0_0", "filler", "", .absolute 10, 10⟩,
      ⟨"fill_top_0_1", "filler", "", .absolute 20, 5⟩, padB5] rfl

/-- Claim C2: a gap whose remaining length — the gap length, less the
reserved minimum separator width when a separator is mandated at this gap
(spec section 4.4 steps 3-4) — cannot be written as a sum of catalog widths
(with repetition) makes the gap-fill generator fail with
`UnfillableGapError` carrying the side and the gap bounds; the `Except`
error carries no instances, so no output is produced for that side.  No
other hypothesis is needed: a negative or zero gap, and a gap at most the
mandated separator width, all have remaining length 0 (truncated
subtraction), which the empty sum tiles, refuting the hypothesis. -/
theorem fillGap_unfillable (cfg : FillCfg) (side : SideName) (gapIdx : Nat)
    (p q : Comp)
    (hno : ¬ ∃ ws : List Nat, (∀ w ∈ ws, w ∈ cfg.catalog) ∧
      ws.sum = (if cfg.sepNeeded p q then
          (compStart q - compEnd p).toNat - cfg.minSepWidth
        else (compStart q - compEnd p).toNat)) :
    fillGap cfg side gapIdx p q =
      .error (.unfillableGap side (compEnd p) (compStart q)) := by
  by_cases hsep : cfg.sepNeeded p q
  · rw [if_pos hsep] at hno
    have hlt : cfg.minSepWidth < (compStart q - compEnd p).toNat := by
      by_contra hle
      push_neg at hle
      refine hno ⟨[], by simp, ?_⟩
      simp only [List.sum_nil]
      omega
    unfold fillGap
    rw [if_neg (by omega), if_neg (by omega), if_pos hsep, if_neg (by omega)]
    cases hfill : exactFill cfg.catalog
        ((compStart q - compEnd p).toNat - cfg.minSepWidth) with
    | some ws =>
      have hs := exactFill_sound _ _ _ hfill
      exact absurd ⟨ws, hs.2, hs.1⟩ hno
    | none => rfl
  · rw [if_neg hsep] at hno
    have hpos : 0 < compStart q - compEnd p := by
      by_contra hle
      push_neg at hle
      refine hno ⟨[], by simp, ?_⟩
      simp only [List.sum_nil]
      omega
    unfold fillGap
    rw [if_neg (by omega), if_neg (by omega), if_neg (by simp [hsep])]
    cases hfill : exactFill cfg.catalog (compStart q - compEnd p).toNat with
    | some ws =>
      have hs := exactFill_sound _ _ _ hfill
      exact absurd ⟨ws, hs.2, hs.1⟩ hno
    | none => rfl

/-- Witness for C2: the 40-unit gap between a pad ending at 30 and a pad
starting at 70 with catalog `{30, 7}` (no combination reaches 40) raises
`UnfillableGapError` naming the side and the bounds 30 and 70 — both with
no separator mandated (remaining length 40) and with a mandated 8-unit
separator (remaining length 32, also unreachable from `{30, 7}`). -/
theorem fillGap_unfillable_witness :
    fillGap (noSepCfg [30, 7]) SideName.bottom 0 padLeft30 padRight30 =
      .error (.unfillableGap SideName.bottom 30 70) ∧
    fillGap ⟨[30, 7], 8, fun _ _ => true⟩ SideName.bottom 0 padLeft30 padRight30 =
      .error (.unfillableGap SideName.bottom 30 70) := by
  constructor
  · apply fillGap_unfillable (noSepCfg [30, 7]) SideName.bottom 0 padLeft30 padRight30
    rintro ⟨ws, hmem, hsum⟩
    have hsome := exactFill_complete [30, 7] 40 ws hmem hsum
    rw [show exactFill [30, 7] 40 = none from rfl] at hsome
    simp at hsome
  · apply fillGap_unfillable ⟨[30, 7], 8, fun _ _ => true⟩ SideName.bottom 0
      padLeft30 padRight30
    rintro ⟨ws, hmem, hsum⟩
    have hsome := exactFill_complete [30, 7] 32 ws hmem hsum
    rw [show exactFill [30, 7] 32 = none from rfl] at hsome
    simp at hsome

/-- Claim C3: on a side of usable length 100 with two 30-unit pads at the
two ends (a 40-unit gap between them) and filler catalog `{20, 10, 5}`, the
gap-fill generator produces fillers summing exactly to 40 (two 20-unit
fillers), and the resulting side tiles 0..100 with no gap and no
overlap. -/
theorem gap_fill_correct_catalog_20_10_5 :
    fillChain (noSepCfg [20, 10, 5]) (fun _ => SideName.bottom) 0
        [padLeft30, padRight30] =
      .ok [padLeft30, fillBottom0, fillBottom1, padRight30] ∧
    chainB 0 100 [padLeft30, fillBottom0, fillBottom1, padRight30] = true ∧
    widthSumI [fillBottom0, fillBottom1] = 40 :=
  ⟨rfl, rfl, rfl⟩

/-- Claim C4: a negative gap between two adjacent placed instances makes
the gap-fill generator fail with `LayoutOverflowError` naming the two
adjacent instances, and a gap of length exactly 0 emits no filler or
separator instance. -/
theorem fillGap_negative_overflow_zero_empty (cfg : FillCfg) (side : SideName)
    (gapIdx : Nat) (p q : Comp) :
    (compStart q - compEnd p < 0 →
      fillGap cfg side gapIdx p q = .error (.layoutOverflow p.name q.name)) ∧
    (compStart q - compEnd p = 0 →
      fillGap cfg side gapIdx p q = .ok []) := by
  constructor
  · intro h
    unfold fillGap
    rw [if_pos h]
  · intro h
    unfold fillGap
    rw [if_neg (by omega), if_pos h]

/-- Witness for C4: a 20-unit pad at 10 overlapping a pad starting at 0
raises `LayoutOverflowError` naming both instances, and two exactly
abutting instances produce no filler. -/
theorem fillGap_negative_overflow_zero_empty_witness :
    fillGap (noSepCfg [20, 10, 5]) SideName.bottom 0 padMid instCorner =
      .error (.layoutOverflow "pad_m" "c1") ∧
    fillGap (noSepCfg [20, 10, 5]) SideName.bottom 0 instCorner padMid =
      .ok [] :=
  ⟨(fillGap_negative_overflow_zero_empty (noSepCfg [20, 10, 5]) SideName.bottom
      0 padMid instCorner).1 (by decide),
   (fillGap_negative_overflow_zero_empty (noSepCfg [20, 10, 5]) SideName.bottom
      0 instCorner padMid).2 (by decide)⟩

/-- Claim C5: the position resolver fails with `UnresolvedReferenceError`
whenever some relative position names a non-existent instance, and — under
the data-model invariants that instance names are unique and every
reference names an existing instance — it fails with `CyclicReferenceError`
whenever some nonempty set of relative instances references only members of
itself (which is exactly when the relative references form a cycle, e.g. A
relative to B and B relative to A).  In either case the `Except` error
carries no resolved instances, so zero instances are resolved. -/
theorem resolver_reference_errors (insts : List Comp) :
    ((∃ i ∈ insts, ∃ r off, i.position = Position.relative r off ∧
        ∀ j ∈ insts, j.name ≠ r) →
      ∃ n m, convert_relative_to_absolute insts =
        .error (.unresolvedReference n m)) ∧
    ((insts.map (fun i => i.name)).Nodup →
      (∀ i ∈ insts, ∀ r off, i.position = Position.relative r off →
        ∃ j ∈ insts, j.name = r) →
      ∀ S : List Comp, S ≠ [] → (∀ i ∈ S, i ∈ insts) →
      (∀ i ∈ S, ∃ r off, i.position = Position.relative r off ∧
        ∃ j ∈ S, j.name = r) →
      convert_relative_to_absolute insts = .error .cyclicReference) :=
  ⟨convert_relative_missing,
   fun hnodup hrefs S hne hin hrel =>
     convert_relative_cyclic hnodup hrefs S hne hin hrel⟩

/-- Witness for C5: the two-instance cycle A relative-to B, B relative-to A
raises `CyclicReferenceError`, and a lone instance referencing the
non-existent `Z` raises `UnresolvedReferenceError`. -/
theorem resolver_reference_errors_witness :
    convert_relative_to_absolute [instRelA, instRelB] =
      .error .cyclicReference ∧
    (∃ n m, convert_relative_to_absolute [instRelC] =
      .error (.unresolvedReference n m)) := by
  constructor
  · refine (resolver_reference_errors [instRelA, instRelB]).2 (by decide) ?_
      [instRelA, instRelB] (List.cons_ne_nil _ _) (fun i hi => hi) ?_
    · intro i hi r off hpos
      rcases List.mem_cons.mp hi with h1 | h1
      · subst h1
        have h' : Position.relative "B" 10 = Position.relative r off := hpos
        cases h'
        exact ⟨instRelB, by simp, rfl⟩
      · rcases List.mem_cons.mp h1 with h2 | h2
        · subst h2
          have h' : Position.relative "A" 10 = Position.relative r off := hpos
          cases h'
          exact ⟨instRelA, by simp, rfl⟩
        · exact absurd h2 (List.not_mem_nil i)
    · intro i hi
      rcases List.mem_cons.mp hi with h1 | h1
      · subst h1
        exact ⟨"B", 10, rfl, instRelB, by simp, rfl⟩
      · rcases List.mem_cons.mp h1 with h2 | h2
        · subst h2
          exact ⟨"A", 10, rfl, instRelA, by simp, rfl⟩
        · exact absurd h2 (List.not_mem_nil i)
  · exact (resolver_reference_errors [instRelC]).1
      ⟨instRelC, List.mem_cons_self _ _, "Z", 1, rfl, by decide⟩

/-- Claim C6: when every corner instance handed to the auto-filler sits at
one of the four computed ring-corner positions (as the Geometry Model
generates them) and the auto-filler stage succeeds, every corner instance
of the output still sits at one of those four positions and is exactly one
of the input corner instances (no field altered), and every input corner
instance survives into the output unchanged. -/
theorem auto_filler_corners_fixed (cfg : FillCfg) (rg : RingGeom)
    (comps innerPads out : List Comp)
    (hcorners : ∀ x ∈ comps, x.type = "corner" →
      x.position ∈ cornerPositions rg)
    (h : auto_insert_fillers_with_inner_pads cfg rg comps innerPads = .ok out) :
    (∀ x ∈ out, x.type = "corner" →
      x ∈ comps ∧ x.position ∈ cornerPositions rg) ∧
    (∀ x ∈ comps, x.type = "corner" → x ∈ out) := by
  have hpres := fillChain_preserves cfg (posToSide rg) (sortByStart comps) 0 out h
  constructor
  · intro x hx hty
    rcases hpres.2 x hx with hmem | hty'
    · have hxin : x ∈ comps := (mem_sortByStart x comps).mp hmem
      exact ⟨hxin, hcorners x hxin hty⟩
    · rcases hty' with h1 | h1 <;> (rw [hty] at h1; exact absurd h1 (by decide))
  · intro x hx _
    exact hpres.1 x ((mem_sortByStart x comps).mpr hx)

/-- Witness for C6: on the example ring, the bottom-left corner instance
passes through the auto-filler unchanged and stays at a computed corner
position. -/
theorem auto_filler_corners_fixed_witness :
    (cornerBL ∈ ([padMid, cornerBL, cornerBR] : List Comp) ∧
      cornerBL.position ∈ cornerPositions rgW) ∧
    cornerBL ∈ [cornerBL, padMid,
      ⟨"fill_bottom_1_0", "filler", "", .absolute 30, 20⟩,
      ⟨"fill_bottom_1_1", "filler", "", .absolute 50, 20⟩,
      ⟨"fill_bottom_1_2", "filler", "", .absolute 70, 20⟩, cornerBR] := by
  have hmain := auto_filler_corners_fixed (noSepCfg [20, 10, 5]) rgW
    [padMid, cornerBL, cornerBR] []
    [cornerBL, padMid,
      ⟨"fill_bottom_1_0", "filler", "", .absolute 30, 20⟩,
      ⟨"fill_bottom_1_1", "filler", "", .absolute 50, 20⟩,
      ⟨"fill_bottom_1_2", "filler", "", .absolute 70, 20⟩, cornerBR]
    (by decide) rfl
  constructor
  · exact hmain.1 cornerBL (by simp) rfl
  · exact hmain.2 cornerBL (by simp) rfl

/-- Claim C7: whenever the visualization component assembly produces an
output, that output ends with exactly the inner-pad instances of the input,
unchanged and in their input order, appended after all perimeter
components — in both the existing-filler branch and the auto-filler branch
of `visualize_io_ring_from_json`. -/
theorem inner_pads_appended_last (cfg : FillCfg) (rg : RingGeom)
    (instances out : List Comp)
    (h : assemble_visualization_components cfg rg instances = .ok out) :
    ∃ pre, out = pre ++ instances.filter (fun i => i.type == "inner_pad") := by
  unfold assemble_visualization_components at h
  by_cases hcond : (instances.any isFillerLike || instances.any isSepLike) = true
  · rw [if_pos hcond] at h
    simp only [Except.ok.injEq] at h
    refine ⟨instances.filter (fun i => i.type == "pad") ++
      instances.filter (fun i => i.type == "corner") ++
      instances.filter (fun c => isFillerLike c || isSepLike c), ?_⟩
    rw [← h]
  · rw [if_neg hcond] at h
    simp only [bind, Except.bind] at h
    cases hauto : auto_insert_fillers_with_inner_pads cfg rg
        (instances.filter (fun i => i.type == "pad") ++
         instances.filter (fun i => i.type == "corner"))
        (instances.filter (fun i => i.type == "inner_pad")) with
    | error e => rw [hauto] at h; exact absurd h (by simp)
    | ok filled =>
      rw [hauto] at h
      simp only [Except.ok.injEq] at h
      exact ⟨filled, h.symm⟩

/-- Witness for C7: an input holding an inner pad, an outer pad, a corner
and an explicit filler assembles into a list that ends with exactly the
inner pad. -/
theorem inner_pads_appended_last_witness :
    ∃ pre, ([instPad, instCorner, instFiller, instInner] : List Comp) =
      pre ++ ([instInner, instPad, instCorner, instFiller].filter
        (fun i => i.type == "inner_pad")) :=
  inner_pads_appended_last (noSepCfg [20, 10, 5]) rgW
    [instInner, instPad, instCorner, instFiller]
    [instPad, instCorner, instFiller, instInner] rfl

/-- Claim C8: when every instance carries an absolute position (no relative
positions anywhere), the position-resolution dispatch of
`visualize_io_ring_from_json` returns the instance list unchanged — every
instance keeps its position. -/
theorem absolute_positions_unchanged (insts : List Comp)
    (h : ∀ i ∈ insts, ∃ o, i.position = Position.absolute o) :
    maybeResolve insts = .ok insts := by
  have hfalse : insts.any (fun i => posHasUnderscore i.position) = false := by
    rw [List.any_eq_false]
    intro i hi
    obtain ⟨o, ho⟩ := h i hi
    simp [posHasUnderscore, ho]
  rw [maybeResolve, hfalse]
  rfl

/-- Witness for C8: a two-instance graph with only absolute positions
resolves to itself. -/
theorem absolute_positions_unchanged_witness :
    maybeResolve [padMid, instCorner] = .ok [padMid, instCorner] :=
  absolute_positions_unchanged [padMid, instCorner] (by
    intro i hi
    rcases List.mem_cons.mp hi with h1 | h1
    · subst h1; exact ⟨10, rfl⟩
    · rcases List.mem_cons.mp h1 with h2 | h2
      · subst h2; exact ⟨0, rfl⟩
      · exact absurd h2 (List.not_mem_nil i))

/-- Claim C9: applying configuration defaults is total and never fails
(`applyConfigDefaults` is a total function); each of `pad_width`,
`pad_height`, `corner_size`, `pad_spacing`, `library_name` and `view_name`
receives the generator default exactly when the caller left it unset and
keeps the caller's value otherwise; and every other field (`width`,
`height`, `cell_name`) is left untouched. -/
theorem config_defaults_exact (d : GeneratorDefaults) (rc : RingConfigIn) :
    ((rc.pad_width = none →
        (applyConfigDefaults d rc).pad_width = some d.pad_width) ∧
      ∀ v, rc.pad_width = some v →
        (applyConfigDefaults d rc).pad_width = some v) ∧
    ((rc.pad_height = none →
        (applyConfigDefaults d rc).pad_height = some d.pad_height) ∧
      ∀ v, rc.pad_height = some v →
        (applyConfigDefaults d rc).pad_height = some v) ∧
    ((rc.corner_size = none →
        (applyConfigDefaults d rc).corner_size = some d.corner_size) ∧
      ∀ v, rc.corner_size = some v →
        (applyConfigDefaults d rc).corner_size = some v) ∧
    ((rc.pad_spacing = none →
        (applyConfigDefaults d rc).pad_spacing = some d.pad_spacing) ∧
      ∀ v, rc.pad_spacing = some v →
        (applyConfigDefaults d rc).pad_spacing = some v) ∧
    ((rc.library_name = none →
        (applyConfigDefaults d rc).library_name = some d.library_name) ∧
      ∀ v, rc.library_name = some v →
        (applyConfigDefaults d rc).library_name = some v) ∧
    ((rc.view_name = none →
        (applyConfigDefaults d rc).view_name = some d.view_name) ∧
      ∀ v, rc.view_name = some v →
        (applyConfigDefaults d rc).view_name = some v) ∧
    (applyConfigDefaults d rc).width = rc.width ∧
    (applyConfigDefaults d rc).height = rc.height ∧
    (applyConfigDefaults d rc).cell_name = rc.cell_name := by
  refine ⟨⟨fun h => ?_, fun v h => ?_⟩, ⟨fun h => ?_, fun v h => ?_⟩,
    ⟨fun h => ?_, fun v h => ?_⟩, ⟨fun h => ?_, fun v h => ?_⟩,
    ⟨fun h => ?_, fun v h => ?_⟩, ⟨fun h => ?_, fun v h => ?_⟩,
    rfl, rfl, rfl⟩ <;>
  simp [applyConfigDefaults, h]

/-- Witness for C9: with defaults `⟨20, 110, 10, 5, "LIB", "layout"⟩` and a
caller config setting only `pad_spacing`, `library_name` and `cell_name`,
the unset `pad_width` gets the default 20, the supplied `library_name`
stays `"MYLIB"`, and the untouched `cell_name` stays `"CELL"`. -/
theorem config_defaults_exact_witness :
    (applyConfigDefaults ⟨20, 110, 10, 5, "LIB", "layout"⟩
      ⟨300, 200, none, some 100, none, none, some "MYLIB", some "CELL", none⟩).pad_width =
        some 20 ∧
    (applyConfigDefaults ⟨20, 110, 10, 5, "LIB", "layout"⟩
      ⟨300, 200, none, some 100, none, none, some "MYLIB", some "CELL", none⟩).library_name =
        some "MYLIB" ∧
    (applyConfigDefaults ⟨20, 110, 10, 5, "LIB", "layout"⟩
      ⟨300, 200, none, some 100, none, none, some "MYLIB", some "CELL", none⟩).cell_name =
        some "CELL" := by
  have hmain := config_defaults_exact ⟨20, 110, 10, 5, "LIB", "layout"⟩
    ⟨300, 200, none, some 100, none, none, some "MYLIB", some "CELL", none⟩
  exact ⟨hmain.1.1 rfl, hmain.2.2.2.2.1.2 "MYLIB" rfl, hmain.2.2.2.2.2.2.2.2⟩

/-- Claim C10: when some input instance is a filler or separator (by
explicit type or by device-label classification),
`visualize_io_ring_from_json` skips automatic filler generation entirely:
the assembled component list is exactly the outer pads, then the corners,
then the existing filler/separator instances in input order, then the inner
pads — with no synthesized filler added and no possibility of failure. -/
theorem existing_fillers_skip_generation (cfg : FillCfg) (rg : RingGeom)
    (instances : List Comp)
    (h : ∃ x ∈ instances, isFillerLike x = true ∨ isSepLike x = true) :
    assemble_visualization_components cfg rg instances =
      .ok (instances.filter (fun i => i.type == "pad") ++
        instances.filter (fun i => i.type == "corner") ++
        instances.filter (fun c => isFillerLike c || isSepLike c) ++
        instances.filter (fun i => i.type == "inner_pad")) := by
  have hcond : (instances.any isFillerLike || instances.any isSepLike) = true := by
    simp only [Bool.or_eq_true, List.any_eq_true]
    rcases h with ⟨x, hx, hor⟩
    rcases hor with h1 | h1
    · exact Or.inl ⟨x, hx, h1⟩
    · exact Or.inr ⟨x, hx, h1⟩
  unfold assemble_visualization_components
  rw [if_pos hcond]

/-- Witness for C10: with an explicit filler present, the assembly returns
exactly pads, corners, existing fillers/separators and inner pads, in that
order, with nothing synthesized. -/
theorem existing_fillers_skip_generation_witness :
    assemble_visualization_components (noSepCfg [20, 10, 5]) rgW
        [instInner, instPad, instCorner, instFiller] =
      .ok [instPad, instCorner, instFiller, instInner] := by
  have hmain := existing_fillers_skip_generation (noSepCfg [20, 10, 5]) rgW
    [instInner, instPad, instCorner, instFiller]
    ⟨instFiller, by simp, Or.inl rfl⟩
  rw [hmain]
  rfl

end RingLayout
